import Mathlib

/-!
Verification of the pyre financial-simulation core: a shallow embedding of
`src/MathLangUtils.ts` (expression evaluator / statement executor) and
`src/SimulationEngine.ts` (scheduling, context merging, export resolution,
snapshot timeline), together with theorems settling the specification claims.

JavaScript numbers are modelled as exact rationals extended with NaN and the
two infinities; strings are modelled through their character lists (`String.data`).
-/

namespace Pyre

/-- Exact rational number (the model of a finite JS double, ignoring
floating-point rounding): integer numerator over positive natural
denominator.  All arithmetic goes through the normalizing constructor
`normQ`, so values built by the model are always in lowest terms and
structural equality coincides with value equality. -/
structure Q where
  n : Int
  d : Nat
deriving DecidableEq

def qZero : Q := ⟨0, 1⟩

/-- Normalize a fraction with nonnegative denominator to lowest terms. -/
def normQ (n : Int) (d : Nat) : Q :=
  if d = 0 then qZero
  else
    let g := Nat.gcd n.natAbs d
    ⟨n / (g : Int), d / g⟩

def qAdd (a b : Q) : Q := normQ (a.n * (b.d : Int) + b.n * (a.d : Int)) (a.d * b.d)

def qNeg (a : Q) : Q := ⟨-a.n, a.d⟩

def qSub (a b : Q) : Q := qAdd a (qNeg b)

def qMul (a b : Q) : Q := normQ (a.n * b.n) (a.d * b.d)

/-- Division for a nonzero divisor (callers handle the zero case). -/
def qDiv (a b : Q) : Q :=
  if b.n < 0 then normQ (-(a.n * (b.d : Int))) (a.d * b.n.natAbs)
  else normQ (a.n * (b.d : Int)) (a.d * b.n.natAbs)

def qOfNat (n : Nat) : Q := ⟨(n : Int), 1⟩

def qOfInt (n : Int) : Q := ⟨n, 1⟩

/-- Model of a JavaScript number: a finite value (exact rational, ignoring
floating-point rounding) or one of the non-finite values NaN, +Infinity,
-Infinity. -/
inductive JSVal where
  | num : Q → JSVal
  | nan : JSVal
  | inf : JSVal
  | negInf : JSVal
deriving DecidableEq

/-- `Number.isNaN`. -/
def JSVal.isNan : JSVal → Bool
  | .nan => true
  | _ => false

/-- JS `+` on numbers. -/
def jsAdd : JSVal → JSVal → JSVal
  | JSVal.nan, _ => JSVal.nan
  | _, JSVal.nan => JSVal.nan
  | JSVal.inf, JSVal.negInf => JSVal.nan
  | JSVal.negInf, JSVal.inf => JSVal.nan
  | JSVal.inf, _ => JSVal.inf
  | _, JSVal.inf => JSVal.inf
  | JSVal.negInf, _ => JSVal.negInf
  | _, JSVal.negInf => JSVal.negInf
  | JSVal.num a, JSVal.num b => JSVal.num (qAdd a b)

/-- JS unary minus on numbers. -/
def jsNeg : JSVal → JSVal
  | JSVal.nan => JSVal.nan
  | JSVal.inf => JSVal.negInf
  | JSVal.negInf => JSVal.inf
  | JSVal.num a => JSVal.num (qNeg a)

/-- JS `-` on numbers. -/
def jsSub (a b : JSVal) : JSVal := jsAdd a (jsNeg b)

/-- JS `*` on numbers. -/
def jsMul : JSVal → JSVal → JSVal
  | JSVal.nan, _ => JSVal.nan
  | _, JSVal.nan => JSVal.nan
  | JSVal.inf, JSVal.inf => JSVal.inf
  | JSVal.inf, JSVal.negInf => JSVal.negInf
  | JSVal.negInf, JSVal.inf => JSVal.negInf
  | JSVal.negInf, JSVal.negInf => JSVal.inf
  | JSVal.inf, JSVal.num b =>
    if b.n = 0 then JSVal.nan else if 0 < b.n then JSVal.inf else JSVal.negInf
  | JSVal.num a, JSVal.inf =>
    if a.n = 0 then JSVal.nan else if 0 < a.n then JSVal.inf else JSVal.negInf
  | JSVal.negInf, JSVal.num b =>
    if b.n = 0 then JSVal.nan else if 0 < b.n then JSVal.negInf else JSVal.inf
  | JSVal.num a, JSVal.negInf =>
    if a.n = 0 then JSVal.nan else if 0 < a.n then JSVal.negInf else JSVal.inf
  | JSVal.num a, JSVal.num b => JSVal.num (qMul a b)

/-- JS `/` on numbers (division by zero produces NaN or a signed infinity). -/
def jsDiv : JSVal → JSVal → JSVal
  | JSVal.nan, _ => JSVal.nan
  | _, JSVal.nan => JSVal.nan
  | JSVal.inf, JSVal.inf => JSVal.nan
  | JSVal.inf, JSVal.negInf => JSVal.nan
  | JSVal.negInf, JSVal.inf => JSVal.nan
  | JSVal.negInf, JSVal.negInf => JSVal.nan
  | JSVal.inf, JSVal.num b => if 0 ≤ b.n then JSVal.inf else JSVal.negInf
  | JSVal.negInf, JSVal.num b => if 0 ≤ b.n then JSVal.negInf else JSVal.inf
  | JSVal.num _, JSVal.inf => JSVal.num qZero
  | JSVal.num _, JSVal.negInf => JSVal.num qZero
  | JSVal.num a, JSVal.num b =>
    if b.n = 0 then
      (if a.n = 0 then JSVal.nan else if 0 < a.n then JSVal.inf else JSVal.negInf)
    else JSVal.num (qDiv a b)

/-- JS falsiness of a number value under `x || 0`: `0` and `NaN` are the only
falsy numbers, so they are replaced by `0`; every other value (including the
infinities) is returned unchanged. -/
def jsOrZero (v : JSVal) : JSVal :=
  if v = JSVal.num qZero || v.isNan then JSVal.num qZero else v

/-- `x || 0` when `x` may also be `undefined` (absent property). -/
def jsOrZeroOpt : Option JSVal → JSVal
  | none => JSVal.num qZero
  | some v => jsOrZero v

/-- Model of the JS `\s` character class on the character range the language
uses (space, tab, LF, VT, FF, CR, NBSP). -/
def jsIsWhitespace (c : Char) : Bool :=
  c.toNat = 32 || (9 ≤ c.toNat && c.toNat ≤ 13) || c.toNat = 160

/-- `String.prototype.trim` on the character list. -/
def trimChars (cs : List Char) : List Char :=
  ((cs.dropWhile jsIsWhitespace).reverse.dropWhile jsIsWhitespace).reverse

/-- `String.prototype.split(sep)` for a one-character separator, on the
character list: JS split always yields at least one (possibly empty) piece. -/
def splitCh (sep : Char) : List Char → List (List Char)
  | [] => [[]]
  | c :: rest =>
    match splitCh sep rest with
    | [] => [[]]
    | piece :: pieces =>
      if c = sep then [] :: piece :: pieces else (c :: piece) :: pieces

/-- Numeric value of a digit string (most significant first). -/
def digitsVal (cs : List Char) : Nat :=
  cs.foldl (fun n c => n * 10 + (c.toNat - 48)) 0

/-- `10 ^ e` for a signed exponent, as an exact rational. -/
def pow10 (e : Int) : Q :=
  if 0 ≤ e then ⟨((10 : Nat) ^ e.toNat : Nat), 1⟩ else ⟨1, (10 : Nat) ^ (-e).toNat⟩

/-- Model of the global JS `parseFloat`: skip leading whitespace, read an
optional sign, then either the literal `Infinity` or the longest decimal
prefix (`digits [. digits] [e|E [sign] digits]`); if no digits are found the
result is NaN.  In particular `parseFloat` happily parses a numeric *prefix*
of a longer string, e.g. `parseFloat("2 + 2") = 2`. -/
def jsParseFloat (s : String) : JSVal :=
  let cs := s.data.dropWhile jsIsWhitespace
  let negSign : Bool := match cs with
    | c :: _ => c = '-'
    | [] => false
  let cs1 : List Char := match cs with
    | c :: r => if c = '-' || c = '+' then r else cs
    | [] => []
  if cs1.take 8 = "Infinity".data then
    (if negSign then JSVal.negInf else JSVal.inf)
  else
    let ip := cs1.takeWhile Char.isDigit
    let r1 := cs1.dropWhile Char.isDigit
    let fp : List Char := match r1 with
      | c :: t => if c = '.' then t.takeWhile Char.isDigit else []
      | [] => []
    let r2 : List Char := match r1 with
      | c :: t => if c = '.' then t.dropWhile Char.isDigit else r1
      | [] => []
    if ip.isEmpty && fp.isEmpty then JSVal.nan
    else
      let mant : Q :=
        qAdd (qOfNat (digitsVal ip)) (normQ (digitsVal fp) ((10 : Nat) ^ fp.length))
      let ex : Int := match r2 with
        | c :: t =>
          if c = 'e' || c = 'E' then
            match t with
            | d :: t2 =>
              if d = '-' then -(digitsVal (t2.takeWhile Char.isDigit) : Int)
              else if d = '+' then (digitsVal (t2.takeWhile Char.isDigit) : Int)
              else (digitsVal (t.takeWhile Char.isDigit) : Int)
            | [] => 0
          else 0
        | [] => 0
      let mag := qMul mant (pow10 ex)
      JSVal.num (if negSign then qNeg mag else mag)

/-- Evaluation failure inside the host evaluation step: a syntax error from
compiling `new Function(...)`, or a reference error for an identifier bound
neither as a context parameter nor as a known global. -/
inductive EvalError where
  | syntaxError : EvalError
  | referenceError : String → EvalError
deriving DecidableEq

deriving instance DecidableEq for Except

/-- Token of the sanitized arithmetic fragment. -/
inductive Tok where
  | num : Q → Tok
  | id : String → Tok
  | plus : Tok
  | minus : Tok
  | star : Tok
  | slash : Tok
  | lparen : Tok
  | rparen : Tok
deriving DecidableEq

def isIdentStart (c : Char) : Bool := c.isAlpha || c = '_'

def isIdentChar (c : Char) : Bool := c.isAlphanum || c = '_'

/-- Lex one JS numeric literal (`digits [. digits] [e|E [sign] digits]`,
also `.digits`, also `digits.`) from the front of the character list. -/
def lexNumber (cs : List Char) : Except EvalError (Q × List Char) :=
  let ip := cs.takeWhile Char.isDigit
  let r1 := cs.dropWhile Char.isDigit
  let fp : List Char := match r1 with
    | c :: t => if c = '.' then t.takeWhile Char.isDigit else []
    | [] => []
  let r2 : List Char := match r1 with
    | c :: t => if c = '.' then t.dropWhile Char.isDigit else r1
    | [] => []
  if ip.isEmpty && fp.isEmpty then .error .syntaxError
  else
    let mant : Q :=
      qAdd (qOfNat (digitsVal ip)) (normQ (digitsVal fp) ((10 : Nat) ^ fp.length))
    match r2 with
    | c :: t =>
      if c = 'e' || c = 'E' then
        let esgn : Int := match t with
          | d :: _ => if d = '-' then -1 else 1
          | [] => 1
        let t1 : List Char := match t with
          | d :: t2 => if d = '-' || d = '+' then t2 else t
          | [] => []
        let ed := t1.takeWhile Char.isDigit
        -- a bare exponent marker (`1e`) is not a valid JS numeric literal
        if ed.isEmpty then .error .syntaxError
        else .ok (qMul mant (pow10 (esgn * (digitsVal ed : Int))), t1.dropWhile Char.isDigit)
      else .ok (mant, r2)
    | [] => .ok (mant, [])

/-- Fuelled tokenizer for the arithmetic fragment; every step consumes at
least one character, so fuel `length + 1` never runs out. -/
def tokenizeF : Nat → List Char → Except EvalError (List Tok)
  | 0, _ => .error .syntaxError
  | _ + 1, [] => .ok []
  | fuel + 1, c :: rest =>
    if jsIsWhitespace c then tokenizeF fuel rest
    else if c = '+' then (tokenizeF fuel rest).map (Tok.plus :: ·)
    else if c = '-' then (tokenizeF fuel rest).map (Tok.minus :: ·)
    else if c = '*' then (tokenizeF fuel rest).map (Tok.star :: ·)
    else if c = '/' then (tokenizeF fuel rest).map (Tok.slash :: ·)
    else if c = '(' then (tokenizeF fuel rest).map (Tok.lparen :: ·)
    else if c = ')' then (tokenizeF fuel rest).map (Tok.rparen :: ·)
    else if c.isDigit || (c = '.' && (rest.headD ' ').isDigit) then
      match lexNumber (c :: rest) with
      | .error e => .error e
      | .ok (q, r) => (tokenizeF fuel r).map (Tok.num q :: ·)
    else if isIdentStart c then
      (tokenizeF fuel ((c :: rest).dropWhile isIdentChar)).map
        (Tok.id (String.mk ((c :: rest).takeWhile isIdentChar)) :: ·)
    else .error .syntaxError

def tokenize (cs : List Char) : Except EvalError (List Tok) :=
  tokenizeF (cs.length + 1) cs

/-- AST of the sanitized arithmetic fragment (spec §6 grammar, binary
`+ - * /`, unary sign, grouping, numbers and identifiers). -/
inductive AExp where
  | lit : Q → AExp
  | var : String → AExp
  | add : AExp → AExp → AExp
  | sub : AExp → AExp → AExp
  | mul : AExp → AExp → AExp
  | div : AExp → AExp → AExp
  | neg : AExp → AExp
  | pos : AExp → AExp
deriving DecidableEq

mutual

/-- `expression := term (("+"|"-") term)*` (fuelled recursive descent). -/
def parseE : Nat → List Tok → Except EvalError (AExp × List Tok)
  | 0, _ => .error .syntaxError
  | fuel + 1, ts =>
    match parseT fuel ts with
    | .error e => .error e
    | .ok (a, r) => parseEL fuel a r

/-- Left-associated chain of additive operators. -/
def parseEL : Nat → AExp → List Tok → Except EvalError (AExp × List Tok)
  | 0, _, _ => .error .syntaxError
  | fuel + 1, a, Tok.plus :: r =>
    match parseT fuel r with
    | .error e => .error e
    | .ok (b, r2) => parseEL fuel (AExp.add a b) r2
  | fuel + 1, a, Tok.minus :: r =>
    match parseT fuel r with
    | .error e => .error e
    | .ok (b, r2) => parseEL fuel (AExp.sub a b) r2
  | _ + 1, a, ts => .ok (a, ts)

/-- `term := factor (("*"|"/") factor)*`. -/
def parseT : Nat → List Tok → Except EvalError (AExp × List Tok)
  | 0, _ => .error .syntaxError
  | fuel + 1, ts =>
    match parseF fuel ts with
    | .error e => .error e
    | .ok (a, r) => parseTL fuel a r

/-- Left-associated chain of multiplicative operators. -/
def parseTL : Nat → AExp → List Tok → Except EvalError (AExp × List Tok)
  | 0, _, _ => .error .syntaxError
  | fuel + 1, a, Tok.star :: r =>
    match parseF fuel r with
    | .error e => .error e
    | .ok (b, r2) => parseTL fuel (AExp.mul a b) r2
  | fuel + 1, a, Tok.slash :: r =>
    match parseF fuel r with
    | .error e => .error e
    | .ok (b, r2) => parseTL fuel (AExp.div a b) r2
  | _ + 1, a, ts => .ok (a, ts)

/-- `factor := number | identifier | "(" expression ")" | ("-"|"+") factor`. -/
def parseF : Nat → List Tok → Except EvalError (AExp × List Tok)
  | 0, _ => .error .syntaxError
  | fuel + 1, Tok.minus :: r =>
    match parseF fuel r with
    | .error e => .error e
    | .ok (a, r2) => .ok (AExp.neg a, r2)
  | fuel + 1, Tok.plus :: r =>
    match parseF fuel r with
    | .error e => .error e
    | .ok (a, r2) => .ok (AExp.pos a, r2)
  | _ + 1, Tok.num q :: r => .ok (AExp.lit q, r)
  | _ + 1, Tok.id s :: r => .ok (AExp.var s, r)
  | fuel + 1, Tok.lparen :: r =>
    match parseE fuel r with
    | .error e => .error e
    | .ok (a, r2) =>
      match r2 with
      | Tok.rparen :: r3 => .ok (a, r3)
      | _ => .error .syntaxError
  | _ + 1, _ => .error .syntaxError

end

/-- A variable context (`Record<string, number>` in the source), modelled as
an association list in insertion order. -/
abbrev Ctx := List (String × JSVal)

/-- Property read `m[k]` (first binding wins; `ctxSet` keeps keys unique). -/
def ctxGet : Ctx → String → Option JSVal
  | [], _ => none
  | (k, v) :: rest, name => if k = name then some v else ctxGet rest name

/-- Property write `m[k] = v`: overwrite in place if the key exists, else
append — exactly the JS object-key insertion-order behaviour. -/
def ctxSet : Ctx → String → JSVal → Ctx
  | [], k, v => [(k, v)]
  | (k0, v0) :: rest, k, v =>
    if k0 = k then (k0, v) :: rest else (k0, v0) :: ctxSet rest k v

/-- The JS `in` operator / `Object.hasOwn`. -/
def hasKey (m : Ctx) (k : String) : Bool := (ctxGet m k).isSome

/-- `Object.keys`. -/
def ctxKeys (m : Ctx) : List String := m.map Prod.fst

/-- Spread merge `{...a, ...b}`: entries of `b` override entries of `a`. -/
def mergeCtx (a b : Ctx) : Ctx :=
  b.foldl (fun acc p => ctxSet acc p.1 p.2) a

/-- Evaluate an arithmetic AST against the context, as the generated
`new Function(...contextKeys, ...)` body would: context keys are parameters
(shadowing globals), other identifiers resolve to the host globals
`Infinity`/`NaN` (`undefined` behaves as NaN in this arithmetic fragment) or
raise a ReferenceError. -/
def evalA : AExp → Ctx → Except EvalError JSVal
  | AExp.lit q, _ => .ok (JSVal.num q)
  | AExp.var s, ctx =>
    match ctxGet ctx s with
    | some v => .ok v
    | none =>
      if s = "Infinity" then .ok JSVal.inf
      else if s = "NaN" then .ok JSVal.nan
      else if s = "undefined" then .ok JSVal.nan
      else .error (EvalError.referenceError s)
  | AExp.add a b, ctx =>
    match evalA a ctx with
    | .error e => .error e
    | .ok va =>
      match evalA b ctx with
      | .error e => .error e
      | .ok vb => .ok (jsAdd va vb)
  | AExp.sub a b, ctx =>
    match evalA a ctx with
    | .error e => .error e
    | .ok va =>
      match evalA b ctx with
      | .error e => .error e
      | .ok vb => .ok (jsSub va vb)
  | AExp.mul a b, ctx =>
    match evalA a ctx with
    | .error e => .error e
    | .ok va =>
      match evalA b ctx with
      | .error e => .error e
      | .ok vb => .ok (jsMul va vb)
  | AExp.div a b, ctx =>
    match evalA a ctx with
    | .error e => .error e
    | .ok va =>
      match evalA b ctx with
      | .error e => .error e
      | .ok vb => .ok (jsDiv va vb)
  | AExp.neg a, ctx =>
    match evalA a ctx with
    | .error e => .error e
    | .ok va => .ok (jsNeg va)
  | AExp.pos a, ctx => evalA a ctx

/-- The raw host evaluation `new Function(...keys, "return (<expr>)")(...)`
over the sanitized arithmetic fragment: tokenize, parse the whole string as
one expression, evaluate. -/
def jsFunctionEvalRaw (expr : String) (ctx : Ctx) : Except EvalError JSVal :=
  match tokenize expr.data with
  | .error e => .error e
  | .ok toks =>
    match parseE (3 * toks.length + 3) toks with
    | .error e => .error e
    | .ok (a, rest) =>
      match rest with
      | [] => evalA a ctx
      | _ => .error EvalError.syntaxError

/-- The host evaluation of the source's generated body
`return (<expr>) || 0`: the raw value with the `|| 0` falsy fallback. -/
def jsFunctionEval (expr : String) (ctx : Ctx) : Except EvalError JSVal :=
  match jsFunctionEvalRaw expr ctx with
  | .error e => .error e
  | .ok v => .ok (jsOrZero v)

/-- The banned-character class of `evaluateExpression`'s security check,
`/[{}[\]`'"\\]/` — the eight characters with codes 123 125 91 93 96 39 34 92
(left/right brace, left/right bracket, backtick, apostrophe, double quote,
backslash).  Note the colon, slash and hash mentioned in the source's error
message are NOT in the class. -/
def bannedChars : List Char :=
  [Char.ofNat 123, Char.ofNat 125, Char.ofNat 91, Char.ofNat 93,
   Char.ofNat 96, Char.ofNat 39, Char.ofNat 34, Char.ofNat 92]

def hasBannedChar (expr : String) : Bool :=
  expr.data.any (fun c => bannedChars.contains c)

/-- `/\.[^\d]/` — some `.` immediately followed by a non-digit character
(a trailing `.` with nothing after it does not match). -/
def hasDotNonDigit : List Char → Bool
  | c :: d :: rest =>
    if c = '.' && !d.isDigit then true else hasDotNonDigit (d :: rest)
  | _ => false

/-- The malformed-decimal-point check: the source first strips all
whitespace (`expr.replace(/\s/g, "")`) and then tests `/\.[^\d]/`. -/
def hasDotViolation (expr : String) : Bool :=
  hasDotNonDigit (expr.data.filter (fun c => !jsIsWhitespace c))

/-- `evaluateExpression(expr, context, raise_errors)` of `MathLangUtils.ts`:
empty expression is 0; a string with a parsable float prefix returns that
prefix verbatim; the two sanitization checks log and return 0 (in every
mode); otherwise the host evaluation runs and, on failure, the error is
rethrown when `raise_errors` is set and swallowed to 0 otherwise.  The
`typeof result === "number"` guard is the identity in this model because the
modelled fragment only produces numbers. -/
def evaluateExpression (expr : String) (ctx : Ctx) (raiseErrors : Bool) :
    Except EvalError JSVal :=
  if (trimChars expr.data).isEmpty then .ok (JSVal.num qZero)
  else if !(jsParseFloat expr).isNan then .ok (jsParseFloat expr)
  else if hasBannedChar expr then .ok (JSVal.num qZero)
  else if hasDotViolation expr then .ok (JSVal.num qZero)
  else
    match jsFunctionEval expr ctx with
    | .ok v => .ok v
    | .error e => if raiseErrors then .error e else .ok (JSVal.num qZero)

/-- One statement of `executeCode`: `split("=")` on EVERY equals sign, trim
the pieces, destructure the first two as name and right-hand side (a missing
second piece behaves as the empty expression), evaluate strictly and assign.
On evaluation failure the context is left unchanged and the error escapes. -/
def execStmt (ctx : Ctx) (stmt : List Char) : Ctx × Option EvalError :=
  match evaluateExpression
      (String.mk (((splitCh '=' stmt).map trimChars).getD 1 [])) ctx true with
  | .ok v => (ctxSet ctx (String.mk (((splitCh '=' stmt).map trimChars).headD [])) v, none)
  | .error e => (ctx, some e)

/-- Run statements in order; the first failing statement aborts the rest,
keeping the updates already made (the source's `.map` callback throws). -/
def runStmts (ctx : Ctx) : List (List Char) → Ctx × Option EvalError
  | [] => (ctx, none)
  | s :: rest =>
    match execStmt ctx s with
    | (ctx2, none) => runStmts ctx2 rest
    | (ctx2, some e) => (ctx2, some e)

/-- `executeCode(code, context)` of `MathLangUtils.ts`: split on newlines,
trim, drop empty lines and lines starting with `#` (code 35), then run each
statement.  The returned pair is the mutated context together with the error
that escaped to the caller, if any. -/
def executeCode (code : String) (ctx : Ctx) : Ctx × Option EvalError :=
  runStmts ctx
    ((((splitCh (Char.ofNat 10) code.data).map trimChars).filter
      (fun l => match l with
        | [] => false
        | c :: _ => c ≠ Char.ofNat 35)))

/-! ## SimulationEngine.ts -/

/-- Calendar date at day granularity, the model of a JS `Date` holding a UTC
midnight parsed from a `YYYY-MM-DD` string (month 1-based; only equality and
order of the fields are ever used, so the base of the month numbering is
immaterial). -/
structure SimDate where
  year : Int
  month : Nat
  day : Nat
deriving DecidableEq

/-- `Date` comparison (`<` on timestamps) is lexicographic on the calendar
fields for day-granularity dates. -/
def dateLt (a b : SimDate) : Bool :=
  if a.year = b.year then
    (if a.month = b.month then decide (a.day < b.day) else decide (a.month < b.month))
  else decide (a.year < b.year)

/-- `new Date(s)` for the engine's `YYYY-MM-DD` date strings. -/
def parseDate (s : String) : SimDate :=
  match splitCh '-' s.data with
  | [y, m, d] => ⟨(digitsVal y : Int), digitsVal m, digitsVal d⟩
  | _ => ⟨0, 0, 0⟩

def isLeap (y : Int) : Bool :=
  y % 4 = 0 && (y % 100 ≠ 0 || y % 400 = 0)

def daysInMonth (y : Int) (m : Nat) : Nat :=
  if m = 2 then (if isLeap y then 29 else 28)
  else if m = 4 || m = 6 || m = 9 || m = 11 then 30 else 31

/-- `date.setDate(date.getDate() + 1)`: step to the next calendar day. -/
def nextDay (d : SimDate) : SimDate :=
  if d.day < daysInMonth d.year d.month then ⟨d.year, d.month, d.day + 1⟩
  else if d.month < 12 then ⟨d.year, d.month + 1, 1⟩
  else ⟨d.year + 1, 1, 1⟩

/-- Day number of a civil date (days since 1970-01-01), the model of
`date.getTime() / 86400000` for a UTC midnight. -/
def daysFromCivil (dt : SimDate) : Int :=
  let y : Int := if dt.month ≤ 2 then dt.year - 1 else dt.year
  let era : Int := (if 0 ≤ y then y else y - 399) / 400
  let yoe : Int := y - era * 400
  let mp : Int := ((dt.month : Int) + 9) % 12
  let doy : Int := (153 * mp + 2) / 5 + (dt.day : Int) - 1
  let doe : Int := yoe * 365 + yoe / 4 - yoe / 100 + doy
  era * 146097 + doe - 719468

inductive Frequency where
  | daily : Frequency
  | monthly : Frequency
  | yearly : Frequency
deriving DecidableEq

/-- The slice of `BlockState` the simulation engine reads (UI-only fields
such as title and graph configuration are omitted; `exports` is the
comma-separated export list the engine splits). -/
structure BlockState where
  startDate : String
  endDate : String
  inputs : List (String × String)
  init : String
  frequency : Frequency
  execution : String
  exports : String

/-- `shouldBlockExecute(date, blockState)`: false outside the inclusive date
range; within it, daily always fires, monthly fires on the start date's
day-of-month, yearly on the start date's day and month. -/
def shouldBlockExecute (date : SimDate) (blockState : BlockState) : Bool :=
  let startDate := parseDate blockState.startDate
  let endDate := parseDate blockState.endDate
  if dateLt date startDate || dateLt endDate date then false
  else
    match blockState.frequency with
    | Frequency.daily => true
    | Frequency.monthly => decide (date.day = startDate.day)
    | Frequency.yearly =>
      decide (date.day = startDate.day) && decide (date.month = startDate.month)

/-- `calculatePeriodsFromStart`: elapsed periods, recomputed from the
calendar difference (daily uses `Math.floor` of an exact whole-day
difference between UTC midnights, so the floor is the exact quotient). -/
def calculatePeriodsFromStart (startDate currentDate : SimDate) :
    Frequency → Int
  | Frequency.daily => daysFromCivil currentDate - daysFromCivil startDate
  | Frequency.monthly =>
    (currentDate.year - startDate.year) * 12 +
      ((currentDate.month : Int) - (startDate.month : Int))
  | Frequency.yearly => currentDate.year - startDate.year

/-- `calculateTotalPeriods` (inclusive count; daily uses `Math.ceil` of an
exact whole-day difference, again the exact quotient). -/
def calculateTotalPeriods (s e : SimDate) : Frequency → Int
  | Frequency.daily => daysFromCivil e - daysFromCivil s
  | Frequency.monthly =>
    (e.year - s.year) * 12 + ((e.month : Int) - (s.month : Int)) + 1
  | Frequency.yearly => e.year - s.year + 1

/-- The export name list of a block run:
`exports.split(",").map(trim).filter(Boolean).concat(Object.keys(globalContext))`
— the declared exports followed by every name currently in the global
context. -/
def parseExports (exportsText : String) (globalContext : Ctx) : List String :=
  (((splitCh ',' exportsText.data).map (fun p => String.mk (trimChars p))).filter
    (fun s => s ≠ "")) ++ ctxKeys globalContext

/-- The export-resolution loop: for each export name present in the run's
context, copy its value into the global context; names absent from the run's
context are skipped (only logged). -/
def liftExports (names : List String) (execContext globalContext : Ctx) : Ctx :=
  names.foldl
    (fun g v =>
      match ctxGet execContext v with
      | some val => ctxSet g v val
      | none => g)
    globalContext

/-- The execution context of one firing after the block's execution program
ran: `{...blockContext, ...globalContext, periods_from_start,
total_periods: blockContext.total_periods || 0}` mutated by
`executeCode(execution)` (whose error, if any, is caught and logged). -/
def execCtxOf (bs : BlockState) (blockContext globalContext : Ctx)
    (periodsFromStart : JSVal) : Ctx :=
  (executeCode bs.execution
    (ctxSet
      (ctxSet (mergeCtx blockContext globalContext)
        "periods_from_start" periodsFromStart)
      "total_periods" (jsOrZeroOpt (ctxGet blockContext "total_periods")))).1

/-- One firing of a block on an active `shouldFire` day: returns the global
context after export resolution together with the execution context that is
persisted as the block's new local context (`blockContexts.set(id,
{...execContext})`). -/
def fireBlock (bs : BlockState) (blockContext globalContext : Ctx)
    (periodsFromStart : JSVal) : Ctx × Ctx :=
  (liftExports (parseExports bs.exports globalContext)
      (execCtxOf bs blockContext globalContext periodsFromStart) globalContext,
   execCtxOf bs blockContext globalContext periodsFromStart)

/-- Generic string-keyed map read (the engine's `Map.get`). -/
def alGet {α : Type} : List (String × α) → String → Option α
  | [], _ => none
  | (k, v) :: rest, name => if k = name then some v else alGet rest name

/-- Generic string-keyed map write (the engine's `Map.set`). -/
def alSet {α : Type} : List (String × α) → String → α → List (String × α)
  | [], k, v => [(k, v)]
  | (k0, v0) :: rest, k, v =>
    if k0 = k then (k0, v) :: rest else (k0, v0) :: alSet rest k v

/-- The lazily-built initial block context: global context, the default
inputs, the block's declared inputs parsed with `parseFloat` (NaN mapping to
0), then the init program (run when non-blank, its error caught and
logged). -/
def initBlockCtx (bs : BlockState) (globalContext : Ctx) : Ctx :=
  let s := parseDate bs.startDate
  let e := parseDate bs.endDate
  let c0 :=
    ctxSet (ctxSet globalContext "periods_from_start" (JSVal.num qZero))
      "total_periods" (JSVal.num (qOfInt (calculateTotalPeriods s e bs.frequency)))
  let c1 := bs.inputs.foldl
    (fun acc p =>
      let v := jsParseFloat p.2
      ctxSet acc p.1 (if v.isNan then JSVal.num qZero else v)) c0
  if (trimChars bs.init.data).isEmpty then c1 else (executeCode bs.init c1).1

/-- A block as handed to the simulation: id plus state. -/
structure SimBlock where
  id : String
  state : BlockState

/-- The per-day body of the engine's block loop for one block: skip when
inactive; on the first active day build the initial context, lift its
exports, and store it; then, when `shouldBlockExecute`, fire the block and
persist the execution context. -/
def processBlock (date : SimDate) (b : SimBlock) (g : Ctx)
    (bcs : List (String × Ctx)) : Ctx × List (String × Ctx) :=
  let s := parseDate b.state.startDate
  let e := parseDate b.state.endDate
  if dateLt date s || dateLt e date then (g, bcs)
  else
    let gb :=
      if (alGet bcs b.id).isNone then
        (liftExports (parseExports b.state.exports g) (initBlockCtx b.state g) g,
         alSet bcs b.id (initBlockCtx b.state g))
      else (g, bcs)
    if !shouldBlockExecute date b.state then gb
    else
      let pfs := calculatePeriodsFromStart s date b.state.frequency
      let r := fireBlock b.state ((alGet gb.2 b.id).getD []) gb.1
        (JSVal.num (qOfInt pfs))
      (r.1, alSet gb.2 b.id r.2)

/-- Running simulation state: global context, per-block local contexts, and
the snapshot timeline produced so far. -/
structure SimSt where
  global : Ctx
  blockCtxs : List (String × Ctx)
  snaps : List (SimDate × Ctx)

/-- One simulated day: process every block in caller order, then append the
snapshot `{date, context: {...globalContext}}`. -/
def dayStep (blocks : List SimBlock) (date : SimDate) (st : SimSt) : SimSt :=
  let p := blocks.foldl (fun acc b => processBlock date b acc.1 acc.2)
    (st.global, st.blockCtxs)
  ⟨p.1, p.2, st.snaps ++ [(date, p.1)]⟩

/-- Iterate the day step over a list of days. -/
def runDays (blocks : List SimBlock) (days : List SimDate) (st : SimSt) : SimSt :=
  days.foldl (fun s d => dayStep blocks d s) st

/-- The engine's input (UI-only fields aside). -/
structure SimulationInput where
  globalInit : String
  blocks : List SimBlock
  birthDate : SimDate
  currentAge : Q
  endAge : Int

/-- `setFullYear(year + n)` with the JS overflow rule for Feb 29 landing in
a non-leap year. -/
def addYearsJs (d : SimDate) (n : Int) : SimDate :=
  let y := d.year + n
  if d.month = 2 && d.day = 29 && !isLeap y then ⟨y, 3, 1⟩ else ⟨y, d.month, d.day⟩

def dateRange (d : SimDate) : Nat → List SimDate
  | 0 => []
  | n + 1 => d :: dateRange (nextDay d) n

/-- The inclusive day range of the run, birth date through birth date plus
`endAge` years. -/
def simDays (input : SimulationInput) : List SimDate :=
  let e := addYearsJs input.birthDate input.endAge
  dateRange input.birthDate
    (daysFromCivil e - daysFromCivil input.birthDate + 1).toNat

/-- `runGlobalSimulation`: run the global init program once against an empty
context (failures keep the partial context), then iterate every day,
emitting one snapshot per day. -/
def runGlobalSimulation (input : SimulationInput) : List (SimDate × Ctx) :=
  let g0 := if (trimChars input.globalInit.data).isEmpty then []
            else (executeCode input.globalInit []).1
  (runDays input.blocks (simDays input) ⟨g0, [], []⟩).snaps

/-! ## Context lemmas -/

theorem ctxGet_ctxSet_self (m : Ctx) (k : String) (v : JSVal) :
    ctxGet (ctxSet m k v) k = some v := by
  induction m with
  | nil => simp [ctxSet, ctxGet]
  | cons p m ih =>
    obtain ⟨k0, v0⟩ := p
    by_cases h : k0 = k
    · simp [ctxSet, ctxGet, h]
    · simp [ctxSet, ctxGet, h, ih]

theorem ctxGet_ctxSet_ne (m : Ctx) (k0 k : String) (v : JSVal) (h : k0 ≠ k) :
    ctxGet (ctxSet m k0 v) k = ctxGet m k := by
  induction m with
  | nil => simp [ctxSet, ctxGet, h]
  | cons p m ih =>
    obtain ⟨k1, v1⟩ := p
    by_cases h1 : k1 = k0
    · subst h1
      simp [ctxSet, ctxGet, h]
    · simp [ctxSet, ctxGet, h1, ih]

theorem hasKey_ctxSet (m : Ctx) (k0 k : String) (v : JSVal)
    (h : hasKey m k = true) : hasKey (ctxSet m k0 v) k = true := by
  by_cases hk : k0 = k
  · subst hk
    simp [hasKey, ctxGet_ctxSet_self]
  · simpa [hasKey, ctxGet_ctxSet_ne m k0 k v hk] using h

theorem hasKey_mem_keys (m : Ctx) (k : String) (h : hasKey m k = true) :
    k ∈ ctxKeys m := by
  induction m with
  | nil => simp [hasKey, ctxGet] at h
  | cons p m ih =>
    obtain ⟨k0, v0⟩ := p
    by_cases hk : k0 = k
    · simp [ctxKeys, hk]
    · simp only [hasKey, ctxGet, hk, if_false] at h
      simp [ctxKeys] at ih ⊢
      exact Or.inr (ih h)

theorem hasKey_foldl_ctxSet (l : List (String × JSVal)) (a : Ctx) (k : String)
    (h : hasKey a k = true ∨ k ∈ l.map Prod.fst) :
    hasKey (l.foldl (fun acc p => ctxSet acc p.1 p.2) a) k = true := by
  induction l generalizing a with
  | nil =>
    rcases h with h | h
    · simpa using h
    · simp at h
  | cons p l ih =>
    simp only [List.foldl_cons]
    apply ih
    rcases h with h | h
    · exact Or.inl (hasKey_ctxSet a p.1 k p.2 h)
    · rw [List.map_cons] at h
      rcases List.mem_cons.mp h with h1 | h1
      · subst h1
        exact Or.inl (by simp [hasKey, ctxGet_ctxSet_self])
      · exact Or.inr h1

theorem hasKey_mergeCtx_right (a b : Ctx) (k : String)
    (h : hasKey b k = true) : hasKey (mergeCtx a b) k = true :=
  hasKey_foldl_ctxSet b a k (Or.inr (hasKey_mem_keys b k h))

theorem execStmt_hasKey (ctx : Ctx) (s : List Char) (k : String)
    (h : hasKey ctx k = true) : hasKey (execStmt ctx s).1 k = true := by
  unfold execStmt
  split
  · exact hasKey_ctxSet ctx _ k _ h
  · exact h

theorem runStmts_hasKey (l : List (List Char)) (ctx : Ctx) (k : String)
    (h : hasKey ctx k = true) : hasKey (runStmts ctx l).1 k = true := by
  induction l generalizing ctx with
  | nil => simpa [runStmts] using h
  | cons s l ih =>
    have hstep := execStmt_hasKey ctx s k h
    rcases hp : execStmt ctx s with ⟨ctx2, err⟩
    rw [hp] at hstep
    cases err with
    | none =>
      simp only [runStmts, hp]
      exact ih ctx2 hstep
    | some e =>
      simp only [runStmts, hp]
      exact hstep

theorem executeCode_hasKey (code : String) (ctx : Ctx) (k : String)
    (h : hasKey ctx k = true) : hasKey (executeCode code ctx).1 k = true := by
  unfold executeCode
  exact runStmts_hasKey _ ctx k h

/-! ## Export-resolution lemmas -/

theorem liftExports_get_aux (names : List String) (E : Ctx) (name : String)
    (hE : hasKey E name = true) :
    ∀ g : Ctx, (name ∈ names ∨ ctxGet g name = ctxGet E name) →
      ctxGet (liftExports names E g) name = ctxGet E name := by
  obtain ⟨val, hval⟩ := Option.isSome_iff_exists.mp hE
  induction names with
  | nil =>
    intro g hmem
    rcases hmem with h | h
    · simp at h
    · simpa [liftExports] using h
  | cons v names ih =>
    intro g hmem
    have step :
        liftExports (v :: names) E g =
          liftExports names E
            (match ctxGet E v with
             | some val => ctxSet g v val
             | none => g) := rfl
    rw [step]
    apply ih
    rcases hmem with h | h
    · rcases List.mem_cons.mp h with h1 | h1
      · right
        rw [← h1, hval]
        show ctxGet (ctxSet g name val) name = some val
        rw [ctxGet_ctxSet_self]
      · exact Or.inl h1
    · right
      rcases hv : ctxGet E v with _ | w
      · exact h
      · by_cases hvn : v = name
        · show ctxGet (ctxSet g v w) name = ctxGet E name
          rw [hvn, ctxGet_ctxSet_self]
          rw [hvn] at hv
          exact hv.symm
        · show ctxGet (ctxSet g v w) name = ctxGet E name
          rw [ctxGet_ctxSet_ne g v name w hvn]
          exact h

theorem liftExports_get_of_mem (names : List String) (E g : Ctx) (name : String)
    (hmem : name ∈ names) (hE : hasKey E name = true) :
    ctxGet (liftExports names E g) name = ctxGet E name :=
  liftExports_get_aux names E name hE g (Or.inl hmem)

theorem liftExports_skip (names : List String) (E : Ctx) (name : String)
    (hE : ctxGet E name = none) :
    ∀ g : Ctx, ctxGet (liftExports names E g) name = ctxGet g name := by
  induction names with
  | nil => intro g; simp [liftExports]
  | cons v names ih =>
    intro g
    have step :
        liftExports (v :: names) E g =
          liftExports names E
            (match ctxGet E v with
             | some val => ctxSet g v val
             | none => g) := rfl
    rw [step]
    rcases hv : ctxGet E v with _ | w
    · exact ih g
    · by_cases hvn : v = name
      · rw [hvn] at hv
        rw [hE] at hv
        simp at hv
      · show ctxGet (liftExports names E (ctxSet g v w)) name = ctxGet g name
        rw [ih (ctxSet g v w)]
        exact ctxGet_ctxSet_ne g v name w hvn

theorem liftExports_frame (names : List String) (E : Ctx) (name : String)
    (hmem : name ∉ names) :
    ∀ g : Ctx, ctxGet (liftExports names E g) name = ctxGet g name := by
  induction names with
  | nil => intro g; simp [liftExports]
  | cons v names ih =>
    intro g
    have hvn : v ≠ name := fun h => hmem (by simp [h])
    have hrest : name ∉ names := fun h => hmem (List.mem_cons_of_mem v h)
    have step :
        liftExports (v :: names) E g =
          liftExports names E
            (match ctxGet E v with
             | some val => ctxSet g v val
             | none => g) := rfl
    rw [step]
    rcases hv : ctxGet E v with _ | w
    · exact ih hrest g
    · show ctxGet (liftExports names E (ctxSet g v w)) name = ctxGet g name
      rw [ih hrest (ctxSet g v w)]
      exact ctxGet_ctxSet_ne g v name w hvn

/-! ## Split and snapshot lemmas -/

theorem splitCh_ne_nil (sep : Char) (l : List Char) : splitCh sep l ≠ [] := by
  cases l with
  | nil => simp [splitCh]
  | cons c rest =>
    simp only [splitCh]
    rcases h : splitCh sep rest with _ | ⟨p, ps⟩
    · simp
    · by_cases hc : c = sep <;> simp [hc]

theorem splitCh_first (sep : Char) (a r : List Char) (ha : sep ∉ a) :
    splitCh sep (a ++ sep :: r) = a :: splitCh sep r := by
  induction a with
  | nil =>
    simp only [List.nil_append, splitCh]
    rcases h : splitCh sep r with _ | ⟨p, ps⟩
    · exact absurd h (splitCh_ne_nil sep r)
    · simp
  | cons c a ih =>
    have hc : c ≠ sep := fun h => ha (by simp [h])
    have ha2 : sep ∉ a := fun h => ha (List.mem_cons_of_mem c h)
    simp only [List.cons_append, splitCh, hc, if_false]
    rw [show List.append a (sep :: r) = a ++ sep :: r from rfl, ih ha2]

theorem dayStep_snaps (blocks : List SimBlock) (d : SimDate) (st : SimSt) :
    (dayStep blocks d st).snaps =
      st.snaps ++
        [(d, (blocks.foldl (fun acc b => processBlock d b acc.1 acc.2)
          (st.global, st.blockCtxs)).1)] := rfl

theorem runDays_snaps_mono (blocks : List SimBlock) (ds : List SimDate)
    (st : SimSt) : ∃ rest, (runDays blocks ds st).snaps = st.snaps ++ rest := by
  induction ds generalizing st with
  | nil => exact ⟨[], by simp [runDays]⟩
  | cons d ds ih =>
    obtain ⟨rest, hrest⟩ := ih (dayStep blocks d st)
    refine ⟨(d, (blocks.foldl (fun acc b => processBlock d b acc.1 acc.2)
      (st.global, st.blockCtxs)).1) :: rest, ?_⟩
    have h1 : runDays blocks (d :: ds) st = runDays blocks ds (dayStep blocks d st) := rfl
    rw [h1, hrest, dayStep_snaps, List.append_assoc]
    rfl

/-! ## Claim theorems -/

/-- Claim C1 (code bug): for `"2 + 2"` in the empty context the evaluator
returns 2, not 4 — the early return on a parsable float *prefix*
(`parseFloat("2 + 2") = 2`) shadows full evaluation, although the host
evaluation of the whole expression yields 4. -/
theorem c1_parsefloat_prefix_shadows_eval :
    evaluateExpression "2 + 2" [] false = .ok (JSVal.num (qOfNat 2)) ∧
    jsFunctionEvalRaw "2 + 2" [] = .ok (JSVal.num (qOfNat 4)) := by
  decide

/-- Claim C2: for every block firing, every name already present in the
global context before the run is copied back from the execution context
(the block's persisted context) after export resolution, whether or not the
block declared it as an export. -/
theorem c2_preexisting_global_overwritten (bs : BlockState) (bc g : Ctx)
    (pfs : JSVal) (name : String) (h : hasKey g name = true) :
    ctxGet (fireBlock bs bc g pfs).1 name =
      ctxGet (fireBlock bs bc g pfs).2 name := by
  have hE : hasKey (execCtxOf bs bc g pfs) name = true := by
    unfold execCtxOf
    apply executeCode_hasKey
    apply hasKey_ctxSet
    apply hasKey_ctxSet
    exact hasKey_mergeCtx_right bc g name h
  show ctxGet
      (liftExports (parseExports bs.exports g) (execCtxOf bs bc g pfs) g) name
      = ctxGet (execCtxOf bs bc g pfs) name
  apply liftExports_get_of_mem
  · unfold parseExports
    exact List.mem_append.mpr (Or.inr (hasKey_mem_keys g name h))
  · exact hE

/-- Claim C2 witness: the spec's export-overwrite scenario — global
`{cash: 100}`, a block whose execution computes `cash = 5` with an empty
export list — ends with global `cash = 5`. -/
theorem c2_preexisting_global_overwritten_witness :
    ctxGet (fireBlock
      ⟨"2025-01-15", "2025-12-15", [], "", Frequency.monthly, "cash = 5", ""⟩
      [] [("cash", JSVal.num (qOfNat 100))] (JSVal.num qZero)).1 "cash" =
      some (JSVal.num (qOfNat 5)) := by
  rw [c2_preexisting_global_overwritten
    ⟨"2025-01-15", "2025-12-15", [], "", Frequency.monthly, "cash = 5", ""⟩
    [] [("cash", JSVal.num (qOfNat 100))] (JSVal.num qZero) "cash" (by decide)]
  decide

/-- Claim C3 counterexample: inside a statement-executor run (strict mode)
an expression with a banned character does NOT raise — `x = y[0]` completes
without error and resolves `x` to 0, because the sanitization checks return
0 before the `raise_errors` flag is ever consulted. -/
theorem c3_strict_sanitization_zero_cx :
    executeCode "x = y[0]" [] = ([("x", JSVal.num qZero)], none) ∧
    evaluateExpression "y[0]" [] true = .ok (JSVal.num qZero) := by
  decide

/-- Claim C3 amended: a sanitization violation (banned character or
malformed decimal point, in an expression with no parsable float prefix)
resolves to 0 and is only logged in EVERY mode, strict mode included;
`raise_errors` affects only host evaluation errors. -/
theorem c3_sanitization_never_raised (expr : String) (ctx : Ctx)
    (hp : (jsParseFloat expr).isNan = true)
    (hs : hasBannedChar expr = true ∨ hasDotViolation expr = true) :
    evaluateExpression expr ctx true = .ok (JSVal.num qZero) := by
  unfold evaluateExpression
  rcases hs with h | h <;> split_ifs <;> simp_all

/-- Claim C3 amended witness: the malformed decimal `a.b` in strict mode. -/
theorem c3_sanitization_never_raised_witness :
    evaluateExpression "a.b" [("a", JSVal.num (qOfNat 1))] true =
      .ok (JSVal.num qZero) :=
  c3_sanitization_never_raised "a.b" [("a", JSVal.num (qOfNat 1))]
    (by decide) (Or.inr (by decide))

/-- Claim C4 counterexample: the characters `:`, `/` (and `#`) are NOT
rejected — `"2:3"` returns 2 (float prefix) in both modes, and `"x / 2"`
simply divides, returning 3 for `x = 6`. -/
theorem c4_colon_slash_not_banned_cx :
    evaluateExpression "2:3" [] false = .ok (JSVal.num (qOfNat 2)) ∧
    evaluateExpression "2:3" [] true = .ok (JSVal.num (qOfNat 2)) ∧
    evaluateExpression "x / 2" [("x", JSVal.num (qOfNat 6))] false =
      .ok (JSVal.num (qOfNat 3)) := by
  decide

/-- Claim C4 amended: the banned-character class is exactly
`{ } [ ] ` ' " \` (no colon, slash or hash), and it rejects — with
result 0 in every mode and every context — exactly when the expression has
no parsable float prefix. -/
theorem c4_banned_char_rejects (expr : String) (ctx : Ctx)
    (raiseErrors : Bool) (hp : (jsParseFloat expr).isNan = true)
    (hb : hasBannedChar expr = true) :
    evaluateExpression expr ctx raiseErrors = .ok (JSVal.num qZero) := by
  unfold evaluateExpression
  split_ifs <;> simp_all

/-- Claim C4 amended witness: a bracketed expression is rejected to 0. -/
theorem c4_banned_char_rejects_witness :
    evaluateExpression "]x[" [] false = .ok (JSVal.num qZero) :=
  c4_banned_char_rejects "]x[" [] false (by decide) (by decide)

/-- Claim C5 counterexample: a computation yielding +Infinity is returned
as +Infinity in lenient mode, not 0 — `Infinity || 0` is `Infinity` because
only `0` and `NaN` are falsy numbers. -/
theorem c5_infinity_not_zeroed_cx :
    jsFunctionEvalRaw "x/0" [("x", JSVal.num (qOfNat 1))] = .ok JSVal.inf ∧
    evaluateExpression "x/0" [("x", JSVal.num (qOfNat 1))] false =
      .ok JSVal.inf := by
  decide

/-- Claim C5 amended: when the host evaluation succeeds with value `v` (and
no earlier guard fires), the evaluator returns `jsOrZero v` in every mode:
NaN (like 0) collapses to 0 via the `|| 0` fallback, while the two
infinities pass through unchanged. -/
theorem c5_nonfinite_or_zero (expr : String) (ctx : Ctx)
    (raiseErrors : Bool) (v : JSVal)
    (ht : (trimChars expr.data).isEmpty = false)
    (hp : (jsParseFloat expr).isNan = true)
    (hb : hasBannedChar expr = false)
    (hd : hasDotViolation expr = false)
    (he : jsFunctionEvalRaw expr ctx = .ok v) :
    evaluateExpression expr ctx raiseErrors = .ok (jsOrZero v) ∧
    jsOrZero JSVal.nan = JSVal.num qZero ∧
    jsOrZero JSVal.inf = JSVal.inf ∧
    jsOrZero JSVal.negInf = JSVal.negInf := by
  refine ⟨?_, by decide, by decide, by decide⟩
  have hfe : jsFunctionEval expr ctx = .ok (jsOrZero v) := by
    unfold jsFunctionEval
    rw [he]
  unfold evaluateExpression
  split_ifs <;> simp_all

/-- Claim C5 amended witness: `0/0` computes NaN, and the evaluator
returns 0 for it. -/
theorem c5_nonfinite_or_zero_witness :
    evaluateExpression "x/x" [("x", JSVal.num qZero)] true =
      .ok (JSVal.num qZero) := by
  have h := c5_nonfinite_or_zero "x/x" [("x", JSVal.num qZero)] true
    JSVal.nan (by decide) (by decide) (by decide) (by decide) (by decide)
  rw [h.1]
  decide

/-- Claim C6 counterexample: a line is split on EVERY `=`, not the first
only — for `x = = 3` the executed right-hand side is the empty middle piece
(so `x` becomes 0 with no error), whereas the remainder after the first
`=`, namely `= 3`, would raise a syntax error in strict mode. -/
theorem c6_split_not_first_only_cx :
    executeCode "x = = 3" [] = ([("x", JSVal.num qZero)], none) ∧
    evaluateExpression "= 3" [] true = .error EvalError.syntaxError := by
  decide

/-- Claim C6 amended: the statement is split on every `=`; the bound
identifier is the trimmed first piece and the evaluated expression is the
trimmed SECOND piece — the text between the first and second `=` — with all
later pieces discarded. -/
theorem c6_stmt_uses_second_piece (a b c : List Char) (ctx : Ctx)
    (ha : '=' ∉ a) (hb : '=' ∉ b) :
    execStmt ctx (a ++ '=' :: (b ++ '=' :: c)) =
      (match evaluateExpression (String.mk (trimChars b)) ctx true with
       | .ok v => (ctxSet ctx (String.mk (trimChars a)) v, none)
       | .error e => (ctx, some e)) := by
  unfold execStmt
  rw [splitCh_first '=' a (b ++ '=' :: c) ha, splitCh_first '=' b c hb]
  rfl

/-- Claim C6 amended witness: for `x = y=7` with `y = 3` the executed
right-hand side is `y` (the piece between the equals signs), so `x`
becomes 3 and the trailing `7` is discarded. -/
theorem c6_stmt_uses_second_piece_witness :
    execStmt [("y", JSVal.num (qOfNat 3))] ("x = y=7".data) =
      ([("y", JSVal.num (qOfNat 3)), ("x", JSVal.num (qOfNat 3))], none) := by
  have e : "x = y=7".data = "x ".data ++ '=' :: (" y".data ++ '=' :: "7".data) := by
    decide
  rw [e, c6_stmt_uses_second_piece "x ".data " y".data "7".data
    [("y", JSVal.num (qOfNat 3))] (by decide) (by decide)]
  decide

/-- Claim C7: the snapshot timeline is append-only — running any further
days only appends to the snapshots produced so far, leaving every earlier
snapshot (date and context alike) unchanged. -/
theorem c7_snapshots_append_only (blocks : List SimBlock)
    (days extra : List SimDate) (st : SimSt) :
    ∃ rest, (runDays blocks (days ++ extra) st).snaps =
      (runDays blocks days st).snaps ++ rest := by
  have h : runDays blocks (days ++ extra) st
      = runDays blocks extra (runDays blocks days st) := by
    unfold runDays
    exact List.foldl_append _ _ _ _
  rw [h]
  exact runDays_snaps_mono blocks extra _

/-- Claim C8: within a block's active range, a monthly block fires exactly
on the start date's day-of-month and a yearly block exactly on the start
date's day and month. -/
theorem c8_shouldfire_day_alignment (d : SimDate) (bs : BlockState)
    (h1 : dateLt d (parseDate bs.startDate) = false)
    (h2 : dateLt (parseDate bs.endDate) d = false) :
    (bs.frequency = Frequency.monthly →
      shouldBlockExecute d bs = decide (d.day = (parseDate bs.startDate).day)) ∧
    (bs.frequency = Frequency.yearly →
      shouldBlockExecute d bs =
        (decide (d.day = (parseDate bs.startDate).day) &&
         decide (d.month = (parseDate bs.startDate).month))) := by
  constructor <;> intro hf <;> simp [shouldBlockExecute, h1, h2, hf]

/-- Claim C8 witness: the monthly block `2025-01-15 .. 2025-12-15` fires on
`2025-02-15` and not on `2025-02-16`. -/
theorem c8_shouldfire_day_alignment_witness :
    shouldBlockExecute ⟨2025, 2, 15⟩
      ⟨"2025-01-15", "2025-12-15", [], "", Frequency.monthly, "", ""⟩ = true ∧
    shouldBlockExecute ⟨2025, 2, 16⟩
      ⟨"2025-01-15", "2025-12-15", [], "", Frequency.monthly, "", ""⟩ = false := by
  constructor
  · rw [(c8_shouldfire_day_alignment ⟨2025, 2, 15⟩
      ⟨"2025-01-15", "2025-12-15", [], "", Frequency.monthly, "", ""⟩
      (by decide) (by decide)).1 rfl]
    decide
  · rw [(c8_shouldfire_day_alignment ⟨2025, 2, 16⟩
      ⟨"2025-01-15", "2025-12-15", [], "", Frequency.monthly, "", ""⟩
      (by decide) (by decide)).1 rfl]
    decide

/-- Claim C9: lenient evaluation is total — for every expression string and
every context, `evaluateExpression` with errors not raised returns `.ok` of
some number value; it never propagates an error. -/
theorem c9_lenient_eval_total (expr : String) (ctx : Ctx) :
    ∃ v, evaluateExpression expr ctx false = .ok v := by
  unfold evaluateExpression
  split_ifs with h1 h2 h3 h4 h5
  · exact ⟨_, rfl⟩
  · exact ⟨_, rfl⟩
  · exact ⟨_, rfl⟩
  · exact ⟨_, rfl⟩
  · exact h5.elim
  · cases h : jsFunctionEval expr ctx with
    | ok v => exact ⟨v, by simp [h]⟩
    | error e => exact ⟨JSVal.num qZero, by simp [h]⟩

/-- Claim C10: export resolution skips any export name missing from the
run's execution context (the global entry is left unchanged, no default is
bound), and never writes a name outside the export set
(declared exports plus existing global names). -/
theorem c10_export_resolution_frame (bs : BlockState) (bc g : Ctx)
    (pfs : JSVal) (name : String) :
    (ctxGet (fireBlock bs bc g pfs).2 name = none →
      ctxGet (fireBlock bs bc g pfs).1 name = ctxGet g name) ∧
    (name ∉ parseExports bs.exports g →
      ctxGet (fireBlock bs bc g pfs).1 name = ctxGet g name) := by
  constructor
  · intro hE
    show ctxGet
        (liftExports (parseExports bs.exports g) (execCtxOf bs bc g pfs) g) name
        = ctxGet g name
    exact liftExports_skip _ _ _ hE g
  · intro hmem
    show ctxGet
        (liftExports (parseExports bs.exports g) (execCtxOf bs bc g pfs) g) name
        = ctxGet g name
    exact liftExports_frame _ _ _ hmem g

/-- Claim C10 witness: a block declaring the never-computed export `gone`
leaves the global entry for `gone` absent, and the undeclared name `zz` is
never written either. -/
theorem c10_export_resolution_frame_witness :
    ctxGet (fireBlock
      ⟨"2025-01-01", "2025-12-31", [], "", Frequency.daily, "", "gone"⟩
      [] [("cash", JSVal.num (qOfNat 100))] (JSVal.num qZero)).1 "gone" = none ∧
    ctxGet (fireBlock
      ⟨"2025-01-01", "2025-12-31", [], "", Frequency.daily, "", "gone"⟩
      [] [("cash", JSVal.num (qOfNat 100))] (JSVal.num qZero)).1 "zz" = none := by
  constructor
  · rw [(c10_export_resolution_frame
      ⟨"2025-01-01", "2025-12-31", [], "", Frequency.daily, "", "gone"⟩
      [] [("cash", JSVal.num (qOfNat 100))] (JSVal.num qZero) "gone").1
      (by decide)]
    decide
  · rw [(c10_export_resolution_frame
      ⟨"2025-01-01", "2025-12-31", [], "", Frequency.daily, "", "gone"⟩
      [] [("cash", JSVal.num (qOfNat 100))] (JSVal.num qZero) "zz").2
      (by decide)]
    decide

end Pyre
